import Mathlib

/-
  Verification of the cdrdao-TOC → CUE-sheet converter (cu/music/cuesheet.py).

  Shallow embedding: Python strings are modelled as lists of characters
  (`PyStr`), Python machine-independent ints as `Nat` (all quantities here
  are nonnegative frame counts and indices), and Python exceptions as an
  explicit `Err` error type threaded through `Except`.  Each definition
  mirrors one source function and keeps its name.
-/

namespace CuToc

/-- A Python string, modelled as its list of characters. -/
abbrev PyStr := List Char

/-- Coerce a Lean string literal to the `PyStr` model. -/
def S (s : String) : PyStr := s.data

/-- Error taxonomy for the conversion, as named by the specification
(§7): the source realises these as `assert` failures and builtin
exceptions (`IndexError`, `ValueError`, `TypeError`). -/
inductive Err where
  | unbalancedBraces
  | ambiguousField (key : PyStr)
  | missingField (key : PyStr)
  | unknownTrackType (value : PyStr)
  | malformedTimecode (text : PyStr)
  | indexOutOfRange
  | valueError
  | typeError
  | assertionError
  deriving DecidableEq

/-! ### Decimal rendering and parsing (Python `str`/`int` on digit strings) -/

/-- Little-endian decimal digits of `n`; the first argument is fuel
(`n` itself suffices) so the recursion is structural. -/
def toDecRevAux : Nat → Nat → List Nat
  | 0, _ => []
  | _ + 1, 0 => []
  | fuel + 1, n + 1 => ((n + 1) % 10) :: toDecRevAux fuel ((n + 1) / 10)

/-- Little-endian decimal digits of `n` (empty for 0). -/
def toDecRev (n : Nat) : List Nat := toDecRevAux n n

/-- The character for decimal digit `d`. -/
def digitChar (d : Nat) : Char := Char.ofNat (48 + d)

/-- Python `str(n)` for a nonnegative integer: its decimal notation. -/
def decString (n : Nat) : PyStr :=
  if n = 0 then ['0'] else (toDecRev n).reverse.map digitChar

/-- Python `f'{n:02d}'`: decimal notation zero-padded to width two. -/
def pad2 (n : Nat) : PyStr :=
  if n < 10 then '0' :: decString n else decString n

/-- The value of a decimal digit character, if it is one. -/
def digitVal (c : Char) : Option Nat :=
  if 48 ≤ c.toNat ∧ c.toNat ≤ 57 then some (c.toNat - 48) else none

/-- Accumulating decimal parser over characters; fails on a non-digit. -/
def str_to_nat_core : PyStr → Nat → Option Nat
  | [], acc => some acc
  | c :: cs, acc =>
    match digitVal c with
    | some d => str_to_nat_core cs (acc * 10 + d)
    | none => none

/-- Python `int(s)` restricted to the unsigned decimal literals that occur
in timecode fields: one or more decimal digits.  Signs, whitespace and
underscores (which never occur in well-formed TOC timecodes) are rejected
as a parse failure, like any other non-digit input. -/
def str_to_nat (s : PyStr) : Option Nat :=
  if s.isEmpty then none else str_to_nat_core s 0

/-! ### Timecode arithmetic (`to_fracs`, `offset_sum`) -/

/-- Python `x.split(':')` with an accumulator for the current field. -/
def split_colon_go : PyStr → PyStr → List PyStr
  | [], cur => [cur.reverse]
  | c :: cs, cur =>
    if c = ':' then cur.reverse :: split_colon_go cs [] else split_colon_go cs (c :: cur)

/-- Python `x.split(':')`: split on every colon, keeping empty fields. -/
def split_colon (x : PyStr) : List PyStr := split_colon_go x []

/-- Source `to_fracs`: parse `MM:SS:FF` into a frame count
`minutes*60*75 + seconds*75 + fracs`; anything that is not exactly three
colon-separated integers is a `ValueError` in the source, named
`MalformedTimecode` by the specification. -/
def to_fracs (x : PyStr) : Except Err Nat :=
  match split_colon x with
  | [m, s, f] =>
    match str_to_nat m, str_to_nat s, str_to_nat f with
    | some mv, some sv, some fv => .ok (mv * 60 * 75 + sv * 75 + fv)
    | _, _, _ => .error (.malformedTimecode x)
  | _ => .error (.malformedTimecode x)

/-- The formatting half of source `offset_sum`: render a frame count as
`MM:SS:FF` through the divmod chain and the `:02d` paddings. -/
def format_fracs (fracs : Nat) : PyStr :=
  let seconds := fracs / 75
  let fracs2 := fracs % 75
  let minutes := seconds / 60
  let seconds2 := seconds % 60
  pad2 minutes ++ [':'] ++ pad2 seconds2 ++ [':'] ++ pad2 fracs2

/-- Source `offset_sum`: parse both operands, add the frame counts,
reformat.  The first parse failure (left operand first, as in Python's
evaluation order) is reported. -/
def offset_sum (x y : PyStr) : Except Err PyStr :=
  match to_fracs x, to_fracs y with
  | .ok fx, .ok fy => .ok (format_fracs (fx + fy))
  | .error e, _ => .error e
  | .ok _, .error e => .error e

/-- A timecode string in the canonical `MM:SS:FF` form: each field in
decimal, zero-padded to two digits. -/
def timecode (m s f : Nat) : PyStr :=
  pad2 m ++ [':'] ++ pad2 s ++ [':'] ++ pad2 f

/-! ### Line folder (`net_braces`, `read_cdrdao_toc`) -/

/-- Source `net_braces`: `s.count('{') - s.count('}')`. -/
def net_braces (s : PyStr) : Int :=
  (s.count '\x7b' : Int) - (s.count '\x7d' : Int)

/-- A raw TOC line survives the folder's filter when it is neither a
`//` comment (after stripping leading whitespace) nor blank. -/
def keep_line (l : PyStr) : Bool :=
  !((S "//").isPrefixOf (l.dropWhile Char.isWhitespace)) &&
    l.any (fun c => !c.isWhitespace)

/-- The loop of source `read_cdrdao_toc` over the remaining input lines,
carrying the folded records so far, the lines of the currently open
brace-delimited block, and the running brace balance.  The source's two
`assert`s are the `UnbalancedBraces` failure of the specification. -/
def read_toc_go : List PyStr → List PyStr → List PyStr → Int → Except Err (List PyStr)
  | [], joined, parts_acc, _ =>
    if parts_acc.isEmpty then .ok joined else .error .unbalancedBraces
  | l :: rest, joined, parts_acc, bc =>
    if keep_line l then
      let parts2 := parts_acc ++ [l]
      let bc2 := bc + net_braces l
      if bc2 < 0 then .error .unbalancedBraces
      else if bc2 = 0 then
        read_toc_go rest (joined ++ [List.intercalate ['\n'] parts2]) [] bc2
      else read_toc_go rest joined parts2 bc2
    else read_toc_go rest joined parts_acc bc

/-- Source `read_cdrdao_toc`, over the file's lines (each already stripped
of its trailing newline, as Python's `rstrip('\n')` leaves them): fold
brace-delimited blocks into single records and strip leading whitespace
from every record. -/
def read_cdrdao_toc (lines : List PyStr) : Except Err (List PyStr) :=
  match read_toc_go lines [] [] 0 with
  | .ok joined => .ok (joined.map (fun x => x.dropWhile Char.isWhitespace))
  | .error e => .error e

/-- The running brace balance stays nonnegative after every kept line. -/
def balances_ok : Int → List PyStr → Bool
  | _, [] => true
  | bc, l :: rest =>
    if keep_line l then
      decide (0 ≤ bc + net_braces l) && balances_ok (bc + net_braces l) rest
    else balances_ok bc rest

/-- The brace balance accumulated over all kept lines, from `bc`. -/
def total_net : Int → List PyStr → Int
  | bc, [] => bc
  | bc, l :: rest =>
    if keep_line l then total_net (bc + net_braces l) rest else total_net bc rest

/-! ### Track splitter (`split_by_track`) -/

/-- The loop of source `split_by_track`: `tracks` holds the finished
groups, `group` the one being accumulated; a record starting with
`TRACK ` closes the current group if it is nonempty. -/
def split_go : List PyStr → List (List PyStr) → List PyStr → List (List PyStr)
  | [], tracks, group => if group.isEmpty then tracks else tracks ++ [group]
  | p :: rest, tracks, group =>
    if (S "TRACK ").isPrefixOf p then
      if group.isEmpty then split_go rest tracks [p]
      else split_go rest (tracks ++ [group]) [p]
    else split_go rest tracks (group ++ [p])

/-- Source `split_by_track`. -/
def split_by_track (parts : List PyStr) : List (List PyStr) :=
  split_go parts [] []

/-! ### Tokenization and field extraction -/

/-- Python `str.split()` with an accumulator holding the reversed current
token: split on whitespace runs, dropping empty tokens. -/
def py_split_go : PyStr → PyStr → List PyStr
  | [], cur => if cur.isEmpty then [] else [cur.reverse]
  | c :: cs, cur =>
    if c.isWhitespace then
      if cur.isEmpty then py_split_go cs [] else cur.reverse :: py_split_go cs []
    else py_split_go cs (c :: cur)

/-- Python `str.split()` (no argument): whitespace tokenization. -/
def py_split (l : PyStr) : List PyStr := py_split_go l []

/-- The comprehension `[x[1:] for x in data if x[0] == key]` of source
`only_matching_word`, on data whose records are all nonempty. -/
def matches_of (data : List (List PyStr)) (key : PyStr) : List (List PyStr) :=
  (data.filter fun x => x.head? = some key).map (List.drop 1)

/-- Source `only_matching_word`: at most one record of the group may have
`key` as its first token; its remaining tokens are fed to `process`.
A record that is empty makes Python's `x[0]` raise `IndexError` before
anything else.  The source's `assert len(matches) < 2` is the
specification's `AmbiguousField`, and `assert missing_ok` its
`MissingField`. -/
def only_matching_word {α : Type} (data : List (List PyStr)) (key : PyStr)
    (process : List PyStr → Except Err α) (missing_ok : Bool) :
    Except Err (Option α) :=
  if data.any List.isEmpty then .error .indexOutOfRange
  else
    match matches_of data key with
    | [] => if missing_ok then .ok none else .error (.missingField key)
    | [m] =>
      match process m with
      | .ok v => .ok (some v)
      | .error e => .error e
    | _ :: _ :: _ => .error (.ambiguousField key)

/-- Source `undoublequote`: strip one double quote from each end; the
string must be quoted and contain no interior quote (`assert`s). -/
def undoublequote (s : PyStr) : Except Err PyStr :=
  if (S "\"").isPrefixOf s then
    if (S "\"").isSuffixOf s then
      let t := (s.drop 1).dropLast
      if t.contains '"' then .error .assertionError else .ok t
    else .error .assertionError
  else .error .assertionError

/-- Source `get_catalog`. -/
def get_catalog (data : List (List PyStr)) : Except Err (Option PyStr) :=
  only_matching_word data (S "CATALOG")
    (fun x =>
      match x.head? with
      | some h => undoublequote h
      | none => .error .indexOutOfRange) true

/-- Source `get_track_file`: the slice `x[1:3]` of the FILE record's
tokens after the keyword, required. -/
def get_track_file (data : List (List PyStr)) : Except Err (Option (List PyStr)) :=
  only_matching_word data (S "FILE") (fun x => .ok ((x.drop 1).take 2)) false

/-- Source `get_start`. -/
def get_start (data : List (List PyStr)) : Except Err (Option PyStr) :=
  only_matching_word data (S "START")
    (fun x =>
      match x.head? with
      | some h => .ok h
      | none => .error .indexOutOfRange) true

/-- Source `get_silence`. -/
def get_silence (data : List (List PyStr)) : Except Err (Option PyStr) :=
  only_matching_word data (S "SILENCE")
    (fun x =>
      match x.head? with
      | some h => .ok h
      | none => .error .indexOutOfRange) true

/-- Source `get_isrc`. -/
def get_isrc (data : List (List PyStr)) : Except Err (Option PyStr) :=
  only_matching_word data (S "ISRC")
    (fun x =>
      match x.head? with
      | some h => undoublequote h
      | none => .error .indexOutOfRange) true

/-- Source `has_copy`: some record's tokens are exactly `COPY`. -/
def has_copy (data : List (List PyStr)) : Bool :=
  data.any (fun x => x = [S "COPY"])

/-- Source `track_type`: the second token of the group's first record,
which must begin with the `TRACK` keyword. -/
def track_type (data : List (List PyStr)) : Except Err PyStr :=
  match data with
  | [] => .error .indexOutOfRange
  | words :: _ =>
    match words with
    | [] => .error .indexOutOfRange
    | w0 :: rest =>
      if w0 = S "TRACK" then
        match rest with
        | w1 :: _ => .ok w1
        | [] => .error .indexOutOfRange
      else .error .assertionError

/-! ### Cue emitter (`make_cuesheet`) -/

/-- The `line` closure of source `make_cuesheet`:
`' '.join(((' ',) * indent) + parts)` — each indent level contributes a
one-space element, so the join renders two spaces per level. -/
def line (indent : Nat) (parts : List PyStr) : PyStr :=
  List.intercalate [' '] (List.replicate indent [' '] ++ parts)

/-- The `INDEX`-emission step of the audio branch of source
`make_cuesheet`: with a pregap (`START`, a nonempty string — Python
tests its truthiness), emit `INDEX 00` at the track start and `INDEX 01`
shifted by the pregap; otherwise a single `INDEX 01` at the track
start. -/
def index_step (track_start : PyStr) (start : Option PyStr) : Except Err (List PyStr) :=
  match start with
  | some st =>
    if st.isEmpty then .ok [line 2 [S "INDEX", S "01", track_start]]
    else
      match offset_sum track_start st with
      | .error e => .error e
      | .ok i1 =>
        .ok [line 2 [S "INDEX", S "00", track_start],
             line 2 [S "INDEX", S "01", i1]]
  | none => .ok [line 2 [S "INDEX", S "01", track_start]]

/-- The `SILENCE`-accumulation step of the audio branch of source
`make_cuesheet`: a present silence duration is added to the running
offset after the track's own lines are emitted. -/
def silence_step (silence_offset : PyStr) (silence : Option PyStr) : Except Err PyStr :=
  match silence with
  | some s => offset_sum silence_offset s
  | none => .ok silence_offset

/-- The body of source `make_cuesheet`'s loop for one `(track, data)`
pair: returns the lines it appends and the updated `silence_offset`. -/
def process_track (t1a : Bool) (track : Nat) (data : List (List PyStr))
    (silence_offset : PyStr) : Except Err (List PyStr × PyStr) :=
  if track = 0 then
    let data_file := if t1a then S "\"data.wav\"" else S "\"data_1\""
    let l1 := line 0 [S "FILE", data_file, S "BINARY"]
    match get_catalog data with
    | .error e => .error e
    | .ok none => .ok ([l1], silence_offset)
    | .ok (some c) => .ok ([l1, line 0 [S "CATALOG", c]], silence_offset)
  else
    match track_type data with
    | .error e => .error e
    | .ok tt =>
      if tt = S "AUDIO" then
        let l1 := line 1 [S "TRACK", pad2 track, S "AUDIO"]
        let flag_lines := if has_copy data then [line 2 [S "FLAGS", S "DCP"]] else []
        match get_isrc data with
        | .error e => .error e
        | .ok isrc =>
          let isrc_lines :=
            match isrc with
            | some i => [line 2 [S "ISRC", i]]
            | none => []
          match get_track_file data with
          | .error e => .error e
          | .ok none => .error .typeError
          | .ok (some tf) =>
            match tf with
            | [ts0, _len] =>
              let ts1 := if ts0 = S "0" then S "00:00:00" else ts0
              match offset_sum ts1 silence_offset with
              | .error e => .error e
              | .ok track_start =>
                match get_start data with
                | .error e => .error e
                | .ok start =>
                  match index_step track_start start with
                  | .error e => .error e
                  | .ok index_lines =>
                    match get_silence data with
                    | .error e => .error e
                    | .ok silence =>
                      match silence_step silence_offset silence with
                      | .error e => .error e
                      | .ok so2 =>
                        .ok (l1 :: flag_lines ++ isrc_lines ++ index_lines, so2)
            | _ => .error .valueError
      else if tt = S "MODE1" then
        .ok ([line 1 [S "TRACK", pad2 track, S "MODE1/2048"],
              line 2 [S "INDEX", S "01", S "00:00:00"]], silence_offset)
      else .error (.unknownTrackType tt)

/-- The `for track, data in enumerate(tracks)` loop of source
`make_cuesheet`, threading `silence_offset` and concatenating the
emitted lines. -/
def tracks_loop (t1a : Bool) : Nat → List (List (List PyStr)) → PyStr → Except Err (List PyStr)
  | _, [], _ => .ok []
  | track, data :: rest, so =>
    match process_track t1a track data so with
    | .error e => .error e
    | .ok (ls, so2) =>
      match tracks_loop t1a (track + 1) rest so2 with
      | .error e => .error e
      | .ok more => .ok (ls ++ more)

/-- Source `make_cuesheet` up to (but not including) the final
`'\n'.join`: the list of output lines, ending with the empty line that
`line(0)` appends for the trailing newline.  Inspecting `tracks[1]` to
decide `track_1_is_audio` happens before the loop, so fewer than two
groups is an `IndexError`. -/
def make_cuesheet_lines (parts : List PyStr) : Except Err (List PyStr) :=
  let tracks := (split_by_track parts).map (fun data => data.map py_split)
  match tracks[1]? with
  | none => .error .indexOutOfRange
  | some d1 =>
    match track_type d1 with
    | .error e => .error e
    | .ok t1 =>
      match tracks_loop (t1 = S "AUDIO") 0 tracks (S "00:00:00") with
      | .error e => .error e
      | .ok ls => .ok (ls ++ [line 0 []])

/-- Source `make_cuesheet`: the cuesheet text, lines joined by newlines. -/
def make_cuesheet (parts : List PyStr) : Except Err PyStr :=
  match make_cuesheet_lines parts with
  | .ok ls => .ok (List.intercalate ['\n'] ls)
  | .error e => .error e

/-- Source `toc_to_cuesheet`: fold the raw lines, then emit. -/
def toc_to_cuesheet (lines : List PyStr) : Except Err PyStr :=
  match read_cdrdao_toc lines with
  | .ok parts => make_cuesheet parts
  | .error e => .error e

/-! ### Observations on output lines (for the indentation claims) -/

/-- The number of leading space characters of an output line. -/
def leading_spaces (l : PyStr) : Nat := (l.takeWhile (fun c => c = ' ')).length

/-- The first whitespace-delimited token of an output line. -/
def first_tok (l : PyStr) : PyStr :=
  (l.dropWhile (fun c => c = ' ')).takeWhile (fun c => !c.isWhitespace)

/-- A correctly indented cue line: `FILE`/`CATALOG` flush left, `TRACK`
one level in (two spaces), `FLAGS`/`ISRC`/`INDEX` two levels in (four
spaces). -/
def good_line (l : PyStr) : Prop :=
  (leading_spaces l = 0 ∧ (first_tok l = S "FILE" ∨ first_tok l = S "CATALOG")) ∨
  (leading_spaces l = 2 ∧ first_tok l = S "TRACK") ∨
  (leading_spaces l = 4 ∧ (first_tok l = S "FLAGS" ∨ first_tok l = S "ISRC" ∨ first_tok l = S "INDEX"))

/-- The `TRACK`/`FLAGS`/`ISRC` prefix of an audio track's emitted lines,
before its `INDEX` lines. -/
def audio_head (track : Nat) (data : List (List PyStr)) (isrc : Option PyStr) : List PyStr :=
  line 1 [S "TRACK", pad2 track, S "AUDIO"] ::
    (if has_copy data then [line 2 [S "FLAGS", S "DCP"]] else []) ++
      (match isrc with
       | some i => [line 2 [S "ISRC", i]]
       | none => [])

/-! ### Lemmas: decimal round trip -/

/-- Value of a little-endian digit list. -/
def ofDigitsRev : List Nat → Nat
  | [] => 0
  | d :: ds => d + 10 * ofDigitsRev ds

lemma toDecRevAux_spec : ∀ fuel n, n ≤ fuel → ofDigitsRev (toDecRevAux fuel n) = n := by
  intro fuel
  induction fuel with
  | zero => intro n hn; interval_cases n; simp [toDecRevAux, ofDigitsRev]
  | succ fuel ih =>
    intro n hn
    match n with
    | 0 => simp [toDecRevAux, ofDigitsRev]
    | n + 1 =>
      have hdiv : (n + 1) / 10 ≤ fuel := by
        have : (n + 1) / 10 < n + 1 := Nat.div_lt_self (Nat.succ_pos n) (by omega)
        omega
      simp only [toDecRevAux, ofDigitsRev, ih _ hdiv]
      omega

lemma toDecRevAux_digits_lt : ∀ fuel n d, d ∈ toDecRevAux fuel n → d < 10 := by
  intro fuel
  induction fuel with
  | zero => intro n d hd; simp [toDecRevAux] at hd
  | succ fuel ih =>
    intro n d hd
    match n with
    | 0 => simp [toDecRevAux] at hd
    | n + 1 =>
      simp only [toDecRevAux, List.mem_cons] at hd
      rcases hd with h | h
      · omega
      · exact ih _ _ h

lemma toDecRevAux_ne_nil : ∀ fuel n, n ≠ 0 → n ≤ fuel → toDecRevAux fuel n ≠ [] := by
  intro fuel n h0 hle
  rcases n with _ | n
  · exact absurd rfl h0
  rcases fuel with _ | fuel
  · omega
  · simp [toDecRevAux]

lemma digitVal_digitChar : ∀ d < 10, digitVal (digitChar d) = some d := by decide

lemma digitChar_ne_colon : ∀ d < 10, digitChar d ≠ ':' := by decide

lemma digitChar_not_ws : ∀ d < 10, (digitChar d).isWhitespace = false := by decide

lemma digitChar_ne_space : ∀ d < 10, digitChar d ≠ ' ' := by decide

lemma str_to_nat_core_digits :
    ∀ (ds : List Nat) (acc : Nat), (∀ d ∈ ds, d < 10) →
      str_to_nat_core (ds.map digitChar) acc =
        some (ds.foldl (fun a d => a * 10 + d) acc) := by
  intro ds
  induction ds with
  | nil => intro acc _; simp [str_to_nat_core]
  | cons d ds ih =>
    intro acc h
    have hd : d < 10 := h d (List.mem_cons_self d ds)
    simp only [List.map_cons, str_to_nat_core, digitVal_digitChar d hd, List.foldl_cons]
    exact ih _ (fun x hx => h x (List.mem_cons_of_mem d hx))

lemma foldl_reverse_digits :
    ∀ ds acc, ds.reverse.foldl (fun a d => a * 10 + d) acc =
      acc * 10 ^ ds.length + ofDigitsRev ds := by
  intro ds
  induction ds with
  | nil => intro acc; simp [ofDigitsRev]
  | cons d ds ih =>
    intro acc
    simp only [List.reverse_cons, List.foldl_append, List.foldl_cons, List.foldl_nil, ih,
      ofDigitsRev, List.length_cons]
    ring

lemma str_to_nat_core_decString (n : Nat) : str_to_nat_core (decString n) 0 = some n := by
  by_cases h : n = 0
  · subst h; decide
  · have hds : ∀ d ∈ toDecRev n, d < 10 := fun d hd => toDecRevAux_digits_lt n n d hd
    have : decString n = ((toDecRev n).reverse).map digitChar := by
      simp [decString, h, List.map_reverse]
    rw [this, str_to_nat_core_digits _ _ (fun d hd => hds d (List.mem_reverse.mp hd)),
      foldl_reverse_digits]
    simp [toDecRevAux_spec n n le_rfl, toDecRev]

lemma decString_ne_nil (n : Nat) : decString n ≠ [] := by
  by_cases h : n = 0
  · subst h; decide
  · simpa [decString, h] using toDecRevAux_ne_nil n n h le_rfl

lemma str_to_nat_pad2 (n : Nat) : str_to_nat (pad2 n) = some n := by
  by_cases h : n < 10
  · have : str_to_nat_core ('0' :: decString n) 0 = some n := by
      simp only [str_to_nat_core]
      have : digitVal '0' = some 0 := by decide
      rw [this]
      simpa using str_to_nat_core_decString n
    simp [str_to_nat, pad2, h, List.isEmpty, this]
  · have hne := decString_ne_nil n
    have : (decString n).isEmpty = false := by
      cases hd : decString n with
      | nil => exact absurd hd hne
      | cons a l => simp
    simp [str_to_nat, pad2, h, this, str_to_nat_core_decString n]

lemma decString_chars (n : Nat) : ∀ c ∈ decString n, c ≠ ':' ∧ c.isWhitespace = false := by
  intro c hc
  by_cases h : n = 0
  · subst h; simp [decString] at hc; subst hc; decide
  · have hrw : decString n = ((toDecRev n).map digitChar).reverse := by
      simp [decString, h, List.map_reverse]
    rw [hrw, List.mem_reverse, List.mem_map] at hc
    obtain ⟨d, hd, rfl⟩ := hc
    have hlt : d < 10 := toDecRevAux_digits_lt n n d hd
    exact ⟨digitChar_ne_colon d hlt, digitChar_not_ws d hlt⟩

lemma pad2_chars (n : Nat) : ∀ c ∈ pad2 n, c ≠ ':' ∧ c.isWhitespace = false := by
  intro c hc
  by_cases h : n < 10
  · simp only [pad2, if_pos h, List.mem_cons] at hc
    rcases hc with rfl | hc
    · exact ⟨by decide, by decide⟩
    · exact decString_chars n c hc
  · simp only [pad2, if_neg h] at hc
    exact decString_chars n c hc

lemma pad2_ne_nil (n : Nat) : pad2 n ≠ [] := by
  by_cases h : n < 10
  · simp [pad2, h]
  · simp only [pad2, if_neg h]
    exact decString_ne_nil n

/-! ### Lemmas: timecode parsing and formatting -/

lemma split_colon_go_no_colon :
    ∀ a cur, (∀ c ∈ a, c ≠ ':') → split_colon_go a cur = [cur.reverse ++ a] := by
  intro a
  induction a with
  | nil => intro cur _; simp [split_colon_go]
  | cons c cs ih =>
    intro cur h
    have hc : c ≠ ':' := h c (List.mem_cons_self c cs)
    simp only [split_colon_go, if_neg hc, ih (c :: cur) (fun x hx => h x (List.mem_cons_of_mem c hx))]
    simp

lemma split_colon_go_append :
    ∀ a r cur, (∀ c ∈ a, c ≠ ':') →
      split_colon_go (a ++ ':' :: r) cur = (cur.reverse ++ a) :: split_colon_go r [] := by
  intro a
  induction a with
  | nil => intro r cur _; simp [split_colon_go]
  | cons c cs ih =>
    intro r cur h
    have hc : c ≠ ':' := h c (List.mem_cons_self c cs)
    have h2 : ∀ x ∈ cs, x ≠ ':' := fun x hx => h x (List.mem_cons_of_mem c hx)
    simp only [List.cons_append, split_colon_go, if_neg hc, List.append_eq]
    rw [ih r (c :: cur) h2]
    simp

lemma split_colon_timecode (m s f : Nat) :
    split_colon (timecode m s f) = [pad2 m, pad2 s, pad2 f] := by
  have hm : ∀ c ∈ pad2 m, c ≠ ':' := fun c hc => (pad2_chars m c hc).1
  have hs : ∀ c ∈ pad2 s, c ≠ ':' := fun c hc => (pad2_chars s c hc).1
  have hf : ∀ c ∈ pad2 f, c ≠ ':' := fun c hc => (pad2_chars f c hc).1
  have : timecode m s f = pad2 m ++ ':' :: (pad2 s ++ ':' :: pad2 f) := by
    simp [timecode]
  rw [split_colon, this, split_colon_go_append _ _ _ hm]
  rw [split_colon_go_append _ _ _ hs, split_colon_go_no_colon _ _ hf]
  simp

lemma str_to_nat_isEmpty_aux (n : Nat) : (pad2 n).isEmpty = false := by
  cases hd : pad2 n with
  | nil => exact absurd hd (pad2_ne_nil n)
  | cons a l => simp

lemma to_fracs_timecode (m s f : Nat) :
    to_fracs (timecode m s f) = .ok (m * 60 * 75 + s * 75 + f) := by
  rw [to_fracs, split_colon_timecode]
  simp [str_to_nat_pad2]

lemma format_fracs_timecode (m s f : Nat) (hs : s < 60) (hf : f < 75) :
    format_fracs (m * 60 * 75 + s * 75 + f) = timecode m s f := by
  have h75d : (m * 60 * 75 + s * 75 + f) / 75 = m * 60 + s := by omega
  have h75m : (m * 60 * 75 + s * 75 + f) % 75 = f := by omega
  have h60d : (m * 60 + s) / 60 = m := by omega
  have h60m : (m * 60 + s) % 60 = s := by omega
  simp only [format_fracs, h75d, h75m, h60d, h60m, timecode]

/-- C3 (counterexample): the claim quantifies over every `MM:SS:FF`
string whose frames field is in `[0,75)`, with no bound on the seconds
field; `"00:60:00"` meets that hypothesis but formatting its parse
normalises the overflowing seconds into minutes, yielding `"01:00:00"`,
not the original string. -/
theorem C3_counterexample :
    (to_fracs (S "00:60:00")).map format_fracs = .ok (S "01:00:00") ∧
      S "01:00:00" ≠ S "00:60:00" := by
  exact ⟨rfl, by decide⟩

/-- C3 (amended): for every timecode string of the canonical form
`MM:SS:FF` whose seconds field is in `[0,60)` and whose frames field is
in `[0,75)`, formatting the frame count obtained by parsing it yields
the string back: `format(parse(t)) = t`. -/
theorem C3_format_parse_roundtrip (m s f : Nat) (hs : s < 60) (hf : f < 75) :
    (to_fracs (timecode m s f)).map format_fracs = .ok (timecode m s f) := by
  rw [to_fracs_timecode]
  simp [Except.map, format_fracs_timecode m s f hs hf]

/-- C3 witness: the round trip at the concrete timecode `12:34:56`. -/
theorem C3_format_parse_roundtrip_witness :
    (to_fracs (timecode 12 34 56)).map format_fracs = .ok (timecode 12 34 56) :=
  C3_format_parse_roundtrip 12 34 56 (by decide) (by decide)

/-- C4: adding the zero timecode `"00:00:00"` is the identity on every
valid (canonical `MM:SS:FF`, seconds < 60, frames < 75) timecode, and a
frame count of exactly zero renders as `"00:00:00"`. -/
theorem C4_add_zero_identity (m s f : Nat) (hs : s < 60) (hf : f < 75) :
    offset_sum (timecode m s f) (S "00:00:00") = .ok (timecode m s f) ∧
      format_fracs 0 = S "00:00:00" := by
  constructor
  · have h1 : to_fracs (timecode m s f) = .ok (m * 60 * 75 + s * 75 + f) :=
      to_fracs_timecode m s f
    have h2 : to_fracs (S "00:00:00") = .ok 0 := rfl
    simp only [offset_sum, h1, h2, Nat.add_zero]
    rw [format_fracs_timecode m s f hs hf]
  · rfl

/-- C4 witness: the addition identity at the concrete timecode
`07:08:09`. -/
theorem C4_add_zero_identity_witness :
    offset_sum (timecode 7 8 9) (S "00:00:00") = .ok (timecode 7 8 9) ∧
      format_fracs 0 = S "00:00:00" :=
  C4_add_zero_identity 7 8 9 (by decide) (by decide)

/-! ### Lemmas: the track splitter -/

lemma ne_nil_of_isEmpty_false {α : Type} {l : List α} (h : l.isEmpty = false) : l ≠ [] := by
  cases l with
  | nil => simp at h
  | cons a t => simp

lemma isEmpty_false_of_ne_nil {α : Type} {l : List α} (h : l ≠ []) : l.isEmpty = false := by
  cases l with
  | nil => exact absurd rfl h
  | cons a t => simp

lemma split_go_acc : ∀ (xs : List PyStr) (ts : List (List PyStr)) (g : List PyStr),
    split_go xs ts g = ts ++ split_go xs [] g := by
  intro xs
  induction xs with
  | nil =>
    intro ts g
    simp only [split_go]
    cases hg : g.isEmpty <;> simp
  | cons p rest ih =>
    intro ts g
    simp only [split_go, List.nil_append]
    cases htrk : (S "TRACK ").isPrefixOf p <;> simp only [Bool.false_eq_true, if_true, if_false]
    · rw [ih ts (g ++ [p])]
    · cases hg : g.isEmpty <;> simp only [Bool.false_eq_true, if_true, if_false]
      · rw [ih (ts ++ [g]) [p], ih [g] [p]]
        simp
      · exact ih ts [p]

lemma split_go_head : ∀ (xs : List PyStr) (g : List PyStr), g ≠ [] →
    (split_go xs [] g).head? =
      some (g ++ xs.takeWhile (fun q => !((S "TRACK ").isPrefixOf q))) := by
  intro xs
  induction xs with
  | nil =>
    intro g hg
    simp [split_go, isEmpty_false_of_ne_nil hg]
  | cons p rest ih =>
    intro g hg
    simp only [split_go, isEmpty_false_of_ne_nil hg, List.takeWhile, List.nil_append]
    cases htrk : (S "TRACK ").isPrefixOf p <;>
      simp only [Bool.false_eq_true, if_true, if_false, Bool.not_false, Bool.not_true]
    · rw [ih (g ++ [p]) (by simp)]
      simp
    · rw [split_go_acc rest [g] [p]]
      simp

lemma split_go_ne_nil : ∀ (xs : List PyStr) (ts : List (List PyStr)) (g : List PyStr),
    (∀ t ∈ ts, t ≠ []) → ∀ t ∈ split_go xs ts g, t ≠ [] := by
  intro xs
  induction xs with
  | nil =>
    intro ts g hts t ht
    simp only [split_go] at ht
    cases hg : g.isEmpty
    · rw [hg] at ht
      simp only [Bool.false_eq_true, if_false, List.mem_append, List.mem_singleton] at ht
      rcases ht with h | h
      · exact hts t h
      · subst h
        exact ne_nil_of_isEmpty_false hg
    · rw [hg] at ht
      simp only [if_true] at ht
      exact hts t ht
  | cons p rest ih =>
    intro ts g hts t ht
    simp only [split_go] at ht
    cases htrk : (S "TRACK ").isPrefixOf p
    · rw [htrk] at ht
      simp only [Bool.false_eq_true, if_false] at ht
      exact ih ts (g ++ [p]) hts t ht
    · rw [htrk] at ht
      simp only [if_true] at ht
      cases hg : g.isEmpty
      · rw [hg] at ht
        simp only [Bool.false_eq_true, if_false] at ht
        refine ih (ts ++ [g]) [p] ?_ t ht
        intro u hu
        rcases List.mem_append.mp hu with h | h
        · exact hts u h
        · rcases List.mem_singleton.mp h with rfl
          exact ne_nil_of_isEmpty_false hg
      · rw [hg] at ht
        simp only [if_true] at ht
        exact ih ts [p] hts t ht

/-- C2 (counterexample): on an input whose very first record is a TRACK
record, the splitter yields a single group beginning with that TRACK
record; no leading header group (which the claim says exists even when
empty) is produced, so the TRACK record begins group 0, not group 1. -/
theorem C2_counterexample :
    split_by_track [S "TRACK AUDIO"] = [[S "TRACK AUDIO"]] ∧
      (split_by_track [S "TRACK AUDIO"]).length = 1 ∧
      (split_by_track [S "TRACK AUDIO"]).head? = some [S "TRACK AUDIO"] :=
  ⟨rfl, rfl, rfl⟩

/-- C2 (amended): the first group returned by the splitter consists of
the first record followed by the immediately following records that do
not start a track, and no group is ever empty; hence a leading header
group exists only when at least one record precedes the first TRACK
record, and for an input beginning with a TRACK record that record
begins group 0. -/
theorem C2_header_group :
    (∀ (p : PyStr) (ps : List PyStr),
       (split_by_track (p :: ps)).head? =
         some (p :: ps.takeWhile (fun q => !((S "TRACK ").isPrefixOf q)))) ∧
      (∀ (parts : List PyStr) (g : List PyStr), g ∈ split_by_track parts → g ≠ []) := by
  constructor
  · intro p ps
    have hred : split_by_track (p :: ps) = split_go ps [] [p] := by
      simp only [split_by_track, split_go]
      cases htrk : (S "TRACK ").isPrefixOf p <;> simp
    rw [hred, split_go_head ps [p] (by simp)]
    simp
  · intro parts g hg
    exact split_go_ne_nil parts [] [] (by simp) g hg

/-- C2 witness: the amended statement evaluated on a concrete input with
a one-record header. -/
theorem C2_header_group_witness :
    (split_by_track [S "CD_DA", S "TRACK AUDIO"]).head? = some [S "CD_DA"] ∧
      [S "CD_DA"] ≠ ([] : List PyStr) :=
  ⟨(C2_header_group.1 (S "CD_DA") [S "TRACK AUDIO"]).trans (by decide),
   C2_header_group.2 [S "CD_DA", S "TRACK AUDIO"] [S "CD_DA"] (by decide)⟩

/-! ### Lemmas: field extraction -/

/-- C5: on a group of (nonempty) tokenized records, field extraction for
`key` fails with `AmbiguousField key` when two or more records carry
`key` as first token; applies the transform to the remaining tokens of
the unique match when exactly one does; and when none does, fails with
`MissingField key` when the field is required, returning absent
(`none`) otherwise. -/
theorem C5_field_extraction {α : Type} (data : List (List PyStr)) (key : PyStr)
    (process : List PyStr → Except Err α) (missing_ok : Bool)
    (hne : ∀ r ∈ data, r ≠ []) :
    (2 ≤ (matches_of data key).length →
       only_matching_word data key process missing_ok = .error (.ambiguousField key)) ∧
      (∀ m, matches_of data key = [m] →
        only_matching_word data key process missing_ok = (process m).map some) ∧
      (matches_of data key = [] →
        only_matching_word data key process missing_ok =
          if missing_ok then .ok none else .error (.missingField key)) := by
  have hany : data.any List.isEmpty = false := by
    rw [List.any_eq_false]
    intro r hr
    simpa using hne r hr
  refine ⟨?_, ?_, ?_⟩
  · intro h2
    rcases hm : matches_of data key with _ | ⟨m, _ | ⟨m2, ms⟩⟩
    · rw [hm] at h2; simp at h2
    · rw [hm] at h2; simp at h2
    · simp [only_matching_word, hany, hm]
  · intro m hm
    simp only [only_matching_word, hany, Bool.false_eq_true, if_false, hm]
    cases hp : process m <;> simp [Except.map, hp]
  · intro hm
    simp [only_matching_word, hany, hm]

/-- C5 witness: the three cases of the extraction contract at concrete
groups — a doubled CATALOG, a unique ISRC, and a missing required
field. -/
theorem C5_field_extraction_witness :
    only_matching_word [[S "CATALOG", S "\"a\""], [S "CATALOG", S "\"b\""]] (S "CATALOG")
        (fun x => (Except.ok x : Except Err (List PyStr))) true =
      .error (.ambiguousField (S "CATALOG")) ∧
      only_matching_word [[S "ISRC", S "x"]] (S "ISRC")
          (fun x => (Except.ok x : Except Err (List PyStr))) true = .ok (some [S "x"]) ∧
      only_matching_word [[S "FILE"]] (S "START")
          (fun x => (Except.ok x : Except Err (List PyStr))) false =
        .error (.missingField (S "START")) :=
  ⟨(C5_field_extraction _ _ _ _ (by decide)).1 (by decide),
   ((C5_field_extraction _ _ _ _ (by decide)).2.1 [S "x"] (by decide)).trans rfl,
   ((C5_field_extraction _ _ _ _ (by decide)).2.2 (by decide)).trans rfl⟩

/-! ### Lemmas: the emitter requires a track group -/

lemma split_go_no_track : ∀ (xs : List PyStr) (ts : List (List PyStr)) (g : List PyStr),
    (∀ p ∈ xs, (S "TRACK ").isPrefixOf p = false) →
      split_go xs ts g = if (g ++ xs).isEmpty then ts else ts ++ [g ++ xs] := by
  intro xs
  induction xs with
  | nil => intro ts g _; simp [split_go]
  | cons p rest ih =>
    intro ts g h
    have hp : (S "TRACK ").isPrefixOf p = false := h p (List.mem_cons_self p rest)
    simp only [split_go, hp, Bool.false_eq_true, if_false]
    rw [ih ts (g ++ [p]) (fun q hq => h q (List.mem_cons_of_mem p hq))]
    simp

/-- C9: the emitter inspects the second group before its loop begins, so
any input that splits into fewer than two groups — in particular any
record sequence containing no TRACK record — makes the conversion fail
with an index error instead of emitting a header-only cue sheet. -/
theorem C9_requires_track_group :
    (∀ parts : List PyStr, (split_by_track parts).length < 2 →
       make_cuesheet parts = .error .indexOutOfRange) ∧
      (∀ parts : List PyStr, (∀ p ∈ parts, (S "TRACK ").isPrefixOf p = false) →
        make_cuesheet parts = .error .indexOutOfRange) := by
  have main : ∀ parts : List PyStr, (split_by_track parts).length < 2 →
      make_cuesheet parts = .error .indexOutOfRange := by
    intro parts h
    have hnone : ((split_by_track parts).map (fun data => data.map py_split))[1]? = none := by
      apply List.getElem?_eq_none
      rw [List.length_map]
      omega
    simp [make_cuesheet, make_cuesheet_lines, hnone]
  refine ⟨main, ?_⟩
  intro parts h
  apply main
  rw [split_by_track, split_go_no_track parts [] [] h]
  simp only [List.nil_append]
  cases hp : parts.isEmpty <;> simp [hp]

/-- C9 witness: a header-only TOC (no TRACK record) fails. -/
theorem C9_requires_track_group_witness :
    make_cuesheet [S "CD_DA"] = .error .indexOutOfRange ∧
      make_cuesheet [S "CATALOG \"123\""] = .error .indexOutOfRange :=
  ⟨C9_requires_track_group.1 [S "CD_DA"] (by decide),
   C9_requires_track_group.2 [S "CATALOG \"123\""] (by decide)⟩

/-! ### Lemmas: the audio and data branches of the emitter -/

/-- C7: for an audio track group, the emitted start position is the FILE
field's declared start (`"00:00:00"` when the raw token is literally
`"0"`, otherwise the token itself) plus the current silence offset
(`hoff`); with a `START` pregap present the group emits `INDEX 00` at
that start and `INDEX 01` at start + pregap, and with `START` absent a
single `INDEX 01` at that start. -/
theorem C7_audio_track_indexes
    (t1a : Bool) (track : Nat) (data : List (List PyStr)) (so : PyStr)
    (isrc sil : Option PyStr) (ts0 len track_start soOut : PyStr)
    (htrack : track ≠ 0)
    (htt : track_type data = .ok (S "AUDIO"))
    (hisrc : get_isrc data = .ok isrc)
    (htf : get_track_file data = .ok (some [ts0, len]))
    (hoff : offset_sum (if ts0 = S "0" then S "00:00:00" else ts0) so = .ok track_start)
    (hsil : get_silence data = .ok sil)
    (hsoOut : silence_step so sil = .ok soOut) :
    (get_start data = .ok none →
       process_track t1a track data so =
         .ok (audio_head track data isrc ++ [line 2 [S "INDEX", S "01", track_start]], soOut)) ∧
      (∀ st i1, get_start data = .ok (some st) → st ≠ [] →
        offset_sum track_start st = .ok i1 →
        process_track t1a track data so =
          .ok (audio_head track data isrc ++
            [line 2 [S "INDEX", S "00", track_start],
             line 2 [S "INDEX", S "01", i1]], soOut)) := by
  constructor
  · intro hstart
    simp only [process_track, if_neg htrack, htt, hisrc, htf, hoff, hstart, hsil, hsoOut,
      index_step]
    simp [audio_head]
  · intro st i1 hstart hne hsum
    simp only [process_track, if_neg htrack, htt, hisrc, htf, hoff, hstart, hsil, hsoOut,
      index_step, isEmpty_false_of_ne_nil hne, Bool.false_eq_true, if_false, hsum]
    simp [audio_head]

/-- C7 witness: an audio track with `START 00:02:00` and declared start
`0` at zero silence offset emits `INDEX 00 00:00:00` and
`INDEX 01 00:02:00`. -/
theorem C7_audio_track_indexes_witness :
    process_track true 1
        [[S "TRACK", S "AUDIO"],
         [S "FILE", S "\"f.wav\"", S "0", S "03:00:00"],
         [S "START", S "00:02:00"]] (S "00:00:00") =
      .ok ([S "  TRACK 01 AUDIO", S "    INDEX 00 00:00:00", S "    INDEX 01 00:02:00"],
        S "00:00:00") :=
  ((C7_audio_track_indexes true 1
      [[S "TRACK", S "AUDIO"],
       [S "FILE", S "\"f.wav\"", S "0", S "03:00:00"],
       [S "START", S "00:02:00"]] (S "00:00:00")
      none none (S "0") (S "03:00:00") (S "00:00:00") (S "00:00:00")
      (by decide) rfl rfl rfl rfl rfl rfl).2
    (S "00:02:00") (S "00:02:00") rfl (by decide) rfl).trans rfl

/-- C8: a Mode1 (data) track group at a nonzero position emits
`TRACK NN MODE1/2048` and a single `INDEX 01 00:00:00`, for every value
of the silence offset, which it leaves unchanged; no pregap or silence
field of the group is consulted. -/
theorem C8_mode1_track (t1a : Bool) (track : Nat) (data : List (List PyStr)) (so : PyStr)
    (htrack : track ≠ 0) (htt : track_type data = .ok (S "MODE1")) :
    process_track t1a track data so =
      .ok ([line 1 [S "TRACK", pad2 track, S "MODE1/2048"],
            line 2 [S "INDEX", S "01", S "00:00:00"]], so) := by
  simp only [process_track, if_neg htrack, htt]
  rw [if_neg (show ¬(S "MODE1" = S "AUDIO") by decide)]
  simp

/-- C8 witness: a concrete MODE1 group carrying both a pregap and a
silence field, at a nonzero silence offset, which it ignores. -/
theorem C8_mode1_track_witness :
    process_track true 2
        [[S "TRACK", S "MODE1"], [S "START", S "00:02:00"], [S "SILENCE", S "00:01:00"]]
        (S "00:05:00") =
      .ok ([S "  TRACK 02 MODE1/2048", S "    INDEX 01 00:00:00"], S "00:05:00") :=
  (C8_mode1_track true 2
      [[S "TRACK", S "MODE1"], [S "START", S "00:02:00"], [S "SILENCE", S "00:01:00"]]
      (S "00:05:00") (by decide) rfl).trans rfl

/-- C10: an audio track group carrying `SILENCE s` computes its own
`INDEX` lines from the incoming silence offset (`hoff` uses `so`), and
only then adds `s`: the returned offset is `so + s` (`hso2`), and the
loop threads that returned offset to all later tracks (third
conjunct). -/
theorem C10_silence_accumulation
    (t1a : Bool) (track : Nat) (data : List (List PyStr)) (so : PyStr)
    (isrc : Option PyStr) (ts0 len track_start s soOut : PyStr)
    (htrack : track ≠ 0)
    (htt : track_type data = .ok (S "AUDIO"))
    (hisrc : get_isrc data = .ok isrc)
    (htf : get_track_file data = .ok (some [ts0, len]))
    (hoff : offset_sum (if ts0 = S "0" then S "00:00:00" else ts0) so = .ok track_start)
    (hsil : get_silence data = .ok (some s))
    (hso2 : offset_sum so s = .ok soOut) :
    (get_start data = .ok none →
       process_track t1a track data so =
         .ok (audio_head track data isrc ++ [line 2 [S "INDEX", S "01", track_start]], soOut)) ∧
      (∀ st i1, get_start data = .ok (some st) → st ≠ [] →
        offset_sum track_start st = .ok i1 →
        process_track t1a track data so =
          .ok (audio_head track data isrc ++
            [line 2 [S "INDEX", S "00", track_start],
             line 2 [S "INDEX", S "01", i1]], soOut)) ∧
      (∀ (rest : List (List (List PyStr))) (ls more : List PyStr),
        process_track t1a track data so = .ok (ls, soOut) →
        tracks_loop t1a (track + 1) rest soOut = .ok more →
        tracks_loop t1a track (data :: rest) so = .ok (ls ++ more)) := by
  have hstep : silence_step so (some s) = .ok soOut := by
    simp [silence_step, hso2]
  refine ⟨?_, ?_, ?_⟩
  · intro hstart
    simp only [process_track, if_neg htrack, htt, hisrc, htf, hoff, hstart, hsil, hstep,
      index_step]
    simp [audio_head]
  · intro st i1 hstart hne hsum
    simp only [process_track, if_neg htrack, htt, hisrc, htf, hoff, hstart, hsil, hstep,
      index_step, isEmpty_false_of_ne_nil hne, Bool.false_eq_true, if_false, hsum]
    simp [audio_head]
  · intro rest ls more hp hmore
    simp [tracks_loop, hp, hmore]

/-- C10 witness: a first audio track with `SILENCE 00:01:00` starts at
`00:00:00` itself, returns offset `00:01:00`, and the loop passes that
offset on. -/
theorem C10_silence_accumulation_witness :
    process_track true 1
        [[S "TRACK", S "AUDIO"],
         [S "FILE", S "\"f.wav\"", S "0", S "03:00:00"],
         [S "SILENCE", S "00:01:00"]] (S "00:00:00") =
      .ok ([S "  TRACK 01 AUDIO", S "    INDEX 01 00:00:00"], S "00:01:00") ∧
      tracks_loop true 1
          [[[S "TRACK", S "AUDIO"],
            [S "FILE", S "\"f.wav\"", S "0", S "03:00:00"],
            [S "SILENCE", S "00:01:00"]]] (S "00:00:00") =
        .ok [S "  TRACK 01 AUDIO", S "    INDEX 01 00:00:00"] := by
  have h := C10_silence_accumulation true 1
    [[S "TRACK", S "AUDIO"],
     [S "FILE", S "\"f.wav\"", S "0", S "03:00:00"],
     [S "SILENCE", S "00:01:00"]] (S "00:00:00")
    none (S "0") (S "03:00:00") (S "00:00:00") (S "00:01:00") (S "00:01:00")
    (by decide) rfl rfl rfl rfl rfl rfl
  have h1 := (h.1 rfl).trans rfl
  exact ⟨h1, (h.2.2 [] _ [] (h.1 rfl) rfl).trans rfl⟩

/-! ### Lemmas: the line folder's brace balance -/

lemma read_toc_go_spec : ∀ (lines joined parts : List PyStr) (bc : Int),
    0 ≤ bc → (parts = [] ↔ bc = 0) →
    (balances_ok bc lines = true ∧ total_net bc lines = 0 →
       ∃ out, read_toc_go lines joined parts bc = .ok out) ∧
      (¬(balances_ok bc lines = true ∧ total_net bc lines = 0) →
        read_toc_go lines joined parts bc = .error .unbalancedBraces) := by
  intro lines
  induction lines with
  | nil =>
    intro joined parts bc hbc hinv
    constructor
    · intro ⟨_, htot⟩
      have hp : parts = [] := hinv.mpr (by simpa [total_net] using htot)
      subst hp
      exact ⟨joined, by simp [read_toc_go]⟩
    · intro hneg
      have hbne : bc ≠ 0 := by
        intro h0
        exact hneg ⟨by simp [balances_ok], by simpa [total_net] using h0⟩
      have hp : parts ≠ [] := fun h => hbne (hinv.mp h)
      simp [read_toc_go, isEmpty_false_of_ne_nil hp]
  | cons l rest ih =>
    intro joined parts bc hbc hinv
    cases hk : keep_line l
    · have hbal : balances_ok bc (l :: rest) = balances_ok bc rest := by
        simp [balances_ok, hk]
      have htot : total_net bc (l :: rest) = total_net bc rest := by
        simp [total_net, hk]
      have := ih joined parts bc hbc hinv
      constructor
      · intro hpos
        obtain ⟨out, hout⟩ := this.1 ⟨by rw [← hbal]; exact hpos.1, by rw [← htot]; exact hpos.2⟩
        exact ⟨out, by simpa [read_toc_go, hk] using hout⟩
      · intro hneg
        have := this.2 (by rw [hbal, htot] at hneg; exact hneg)
        simpa [read_toc_go, hk] using this
    · have hbal : balances_ok bc (l :: rest) =
          (decide (0 ≤ bc + net_braces l) && balances_ok (bc + net_braces l) rest) := by
        simp [balances_ok, hk]
      have htot : total_net bc (l :: rest) = total_net (bc + net_braces l) rest := by
        simp [total_net, hk]
      by_cases hneg2 : bc + net_braces l < 0
      · constructor
        · intro ⟨hb, _⟩
          rw [hbal] at hb
          simp only [Bool.and_eq_true, decide_eq_true_eq] at hb
          omega
        · intro _
          simp [read_toc_go, hk, if_pos hneg2]
      · have hge : 0 ≤ bc + net_braces l := by omega
        by_cases hz : bc + net_braces l = 0
        · have := ih (joined ++ [List.intercalate ['\n'] (parts ++ [l])]) [] (bc + net_braces l)
            hge (by simp [hz])
          constructor
          · intro hpos
            rw [hbal] at hpos
            obtain ⟨out, hout⟩ := this.1
              ⟨by have := hpos.1; simp only [Bool.and_eq_true] at this; exact this.2,
               by rw [← htot]; exact hpos.2⟩
            refine ⟨out, ?_⟩
            simp only [read_toc_go, hk, if_pos rfl, if_neg (by omega : ¬ bc + net_braces l < 0),
              if_pos hz]
            exact hout
          · intro hneg
            have herr := this.2 (by
              intro ⟨hb, ht⟩
              exact hneg ⟨by rw [hbal]; simp [hb, hge], by rw [htot]; exact ht⟩)
            simp only [read_toc_go, hk, if_pos rfl, if_neg (by omega : ¬ bc + net_braces l < 0),
              if_pos hz]
            exact herr
        · have hinv2 : parts ++ [l] = [] ↔ bc + net_braces l = 0 := by
            constructor
            · intro h; simp at h
            · intro h; exact absurd h hz
          have := ih joined (parts ++ [l]) (bc + net_braces l) hge hinv2
          constructor
          · intro hpos
            rw [hbal] at hpos
            obtain ⟨out, hout⟩ := this.1
              ⟨by have := hpos.1; simp only [Bool.and_eq_true] at this; exact this.2,
               by rw [← htot]; exact hpos.2⟩
            refine ⟨out, ?_⟩
            simp only [read_toc_go, hk, if_pos rfl, if_neg (by omega : ¬ bc + net_braces l < 0),
              if_neg hz]
            exact hout
          · intro hneg
            have herr := this.2 (by
              intro ⟨hb, ht⟩
              exact hneg ⟨by rw [hbal]; simp [hb, hge], by rw [htot]; exact ht⟩)
            simp only [read_toc_go, hk, if_pos rfl, if_neg (by omega : ¬ bc + net_braces l < 0),
              if_neg hz]
            exact herr

/-- C6: the running brace balance over the kept (non-comment, non-blank)
lines must never go negative and must be zero once the input is
exhausted; every input violating either condition makes the folder —
and hence the whole conversion — fail with `UnbalancedBraces`, producing
no output, while every input satisfying both folds successfully. -/
theorem C6_unbalanced_braces (lines : List PyStr) :
    (¬(balances_ok 0 lines = true ∧ total_net 0 lines = 0) →
       read_cdrdao_toc lines = .error .unbalancedBraces ∧
         toc_to_cuesheet lines = .error .unbalancedBraces) ∧
      (balances_ok 0 lines = true ∧ total_net 0 lines = 0 →
        read_cdrdao_toc lines ≠ .error .unbalancedBraces ∧
          ∀ e, read_cdrdao_toc lines ≠ .error e) := by
  have hspec := read_toc_go_spec lines [] [] 0 le_rfl (by simp)
  constructor
  · intro hneg
    have herr := hspec.2 hneg
    have h1 : read_cdrdao_toc lines = .error .unbalancedBraces := by
      simp [read_cdrdao_toc, herr]
    exact ⟨h1, by simp [toc_to_cuesheet, h1]⟩
  · intro hpos
    obtain ⟨out, hout⟩ := hspec.1 hpos
    have : read_cdrdao_toc lines = .ok (out.map (fun x => x.dropWhile Char.isWhitespace)) := by
      simp [read_cdrdao_toc, hout]
    exact ⟨by simp [this], fun e => by simp [this]⟩

/-- C6 witness: a block opened by `CD_TEXT {` and never closed leaves a
positive final balance, so the conversion fails with unbalanced braces;
a balanced input folds without that failure. -/
theorem C6_unbalanced_braces_witness :
    (read_cdrdao_toc [S "CD_TEXT \x7b"] = .error .unbalancedBraces ∧
       toc_to_cuesheet [S "CD_TEXT \x7b"] = .error .unbalancedBraces) ∧
      ∀ e, read_cdrdao_toc [S "CD_DA"] ≠ .error e :=
  ⟨(C6_unbalanced_braces [S "CD_TEXT \x7b"]).1 (by decide),
   ((C6_unbalanced_braces [S "CD_DA"]).2 (by decide)).2⟩

/-! ### Lemmas: indentation of emitted lines -/

lemma takeWhile_nonws_append (tok t : PyStr) (hw : ∀ c ∈ tok, c.isWhitespace = false)
    (ht : t = [] ∨ ∃ r, t = ' ' :: r) :
    (tok ++ t).takeWhile (fun c => !c.isWhitespace) = tok := by
  induction tok with
  | nil =>
    rcases ht with rfl | ⟨r, rfl⟩
    · simp
    · simp [List.takeWhile_cons]
  | cons c cs ih =>
    have hc : c.isWhitespace = false := hw c (List.mem_cons_self c cs)
    simp only [List.cons_append, List.takeWhile_cons, hc, Bool.not_false, if_true]
    rw [ih (fun x hx => hw x (List.mem_cons_of_mem c hx))]

lemma tok_shape (tok t : PyStr) (hne : tok ≠ [])
    (hw : ∀ c ∈ tok, c.isWhitespace = false)
    (ht : t = [] ∨ ∃ r, t = ' ' :: r) :
    leading_spaces (tok ++ t) = 0 ∧ first_tok (tok ++ t) = tok := by
  cases tok with
  | nil => exact absurd rfl hne
  | cons c cs =>
    have hc : c.isWhitespace = false := hw c (List.mem_cons_self c cs)
    have hcsp : ¬(c = ' ') := by
      intro h
      subst h
      simp at hc
    constructor
    · simp [leading_spaces, List.takeWhile_cons, hcsp]
    · simp only [first_tok, List.cons_append, List.dropWhile_cons, decide_eq_true_eq,
        if_neg hcsp]
      exact takeWhile_nonws_append (c :: cs) t hw ht

lemma lsp_cons_space (l : PyStr) : leading_spaces (' ' :: l) = leading_spaces l + 1 := by
  simp [leading_spaces, List.takeWhile_cons]

lemma ftok_cons_space (l : PyStr) : first_tok (' ' :: l) = first_tok l := by
  simp [first_tok, List.dropWhile_cons]

lemma intercalate_space_cons (x : PyStr) (ys : List PyStr) (h : ys ≠ []) :
    List.intercalate [' '] (x :: ys) = x ++ ' ' :: List.intercalate [' '] ys := by
  cases ys with
  | nil => exact absurd rfl h
  | cons y ys => simp [List.intercalate, List.intersperse]

lemma line_shape : ∀ (i : Nat) (tok : PyStr) (rest : List PyStr), tok ≠ [] →
    (∀ c ∈ tok, c.isWhitespace = false) →
    leading_spaces (line i (tok :: rest)) = 2 * i ∧ first_tok (line i (tok :: rest)) = tok := by
  intro i
  induction i with
  | zero =>
    intro tok rest hne hw
    cases rest with
    | nil =>
      have hl : line 0 [tok] = tok ++ [] := by simp [line, List.intercalate]
      rw [hl]
      exact tok_shape tok [] hne hw (Or.inl rfl)
    | cons y ys =>
      have hl : line 0 (tok :: y :: ys) = tok ++ ' ' :: List.intercalate [' '] (y :: ys) := by
        simp only [line, List.replicate, List.nil_append]
        exact intercalate_space_cons tok (y :: ys) (by simp)
      rw [hl]
      exact tok_shape tok _ hne hw (Or.inr ⟨_, rfl⟩)
  | succ i ih =>
    intro tok rest hne hw
    have h1 : line (i + 1) (tok :: rest) = ' ' :: ' ' :: line i (tok :: rest) := by
      simp only [line, List.replicate_succ, List.cons_append]
      rw [intercalate_space_cons [' '] _ (by simp)]
      rfl
    rw [h1]
    refine ⟨?_, ?_⟩
    · rw [lsp_cons_space, lsp_cons_space, (ih tok rest hne hw).1]
      ring
    · rw [ftok_cons_space, ftok_cons_space]
      exact (ih tok rest hne hw).2

lemma good_line_level0 (tok : PyStr) (rest : List PyStr)
    (hd : tok = S "FILE" ∨ tok = S "CATALOG") : good_line (line 0 (tok :: rest)) := by
  have hsh : leading_spaces (line 0 (tok :: rest)) = 0 ∧
      first_tok (line 0 (tok :: rest)) = tok := by
    rcases hd with rfl | rfl
    · exact line_shape 0 _ rest (by decide) (by decide)
    · exact line_shape 0 _ rest (by decide) (by decide)
  exact Or.inl ⟨hsh.1, by rw [hsh.2]; exact hd⟩

lemma good_line_level1 (rest : List PyStr) : good_line (line 1 (S "TRACK" :: rest)) := by
  have hsh := line_shape 1 (S "TRACK") rest (by decide) (by decide)
  exact Or.inr (Or.inl ⟨hsh.1, hsh.2⟩)

lemma good_line_level2 (tok : PyStr) (rest : List PyStr)
    (hd : tok = S "FLAGS" ∨ tok = S "ISRC" ∨ tok = S "INDEX") :
    good_line (line 2 (tok :: rest)) := by
  have hsh : leading_spaces (line 2 (tok :: rest)) = 4 ∧
      first_tok (line 2 (tok :: rest)) = tok := by
    rcases hd with rfl | rfl | rfl
    · exact line_shape 2 _ rest (by decide) (by decide)
    · exact line_shape 2 _ rest (by decide) (by decide)
    · exact line_shape 2 _ rest (by decide) (by decide)
  exact Or.inr (Or.inr ⟨hsh.1, by rw [hsh.2]; exact hd⟩)

lemma index_step_good (ts : PyStr) (start : Option PyStr) (ils : List PyStr)
    (h : index_step ts start = .ok ils) : ∀ l ∈ ils, good_line l := by
  intro l hl
  cases start with
  | none =>
    simp only [index_step, Except.ok.injEq] at h
    subst h
    rcases List.mem_singleton.mp hl with rfl
    exact good_line_level2 _ _ (Or.inr (Or.inr rfl))
  | some st =>
    simp only [index_step] at h
    by_cases he : st.isEmpty
    · rw [if_pos he] at h
      injection h with h2
      subst h2
      rcases List.mem_singleton.mp hl with rfl
      exact good_line_level2 _ _ (Or.inr (Or.inr rfl))
    · rw [if_neg he] at h
      cases hos : offset_sum ts st with
      | error e => rw [hos] at h; cases h
      | ok i1 =>
        rw [hos] at h
        injection h with h3
        subst h3
        rcases List.mem_cons.mp hl with rfl | hl
        · exact good_line_level2 _ _ (Or.inr (Or.inr rfl))
        · rcases List.mem_singleton.mp hl with rfl
          exact good_line_level2 _ _ (Or.inr (Or.inr rfl))

lemma process_track_good (t1a : Bool) (track : Nat) (data : List (List PyStr))
    (so : PyStr) (ls : List PyStr) (so2 : PyStr)
    (h : process_track t1a track data so = .ok (ls, so2)) :
    ∀ l ∈ ls, good_line l := by
  intro l hl
  by_cases htr : track = 0
  · rw [htr] at h
    simp only [process_track, if_pos rfl] at h
    cases hc : get_catalog data with
    | error e => simp only [hc] at h; simp at h
    | ok c =>
      simp only [hc] at h
      cases c with
      | none =>
        simp only [Except.ok.injEq, Prod.mk.injEq] at h
        obtain ⟨rfl, -⟩ := h
        rcases List.mem_singleton.mp hl with rfl
        exact good_line_level0 _ _ (Or.inl rfl)
      | some cat =>
        simp only [Except.ok.injEq, Prod.mk.injEq] at h
        obtain ⟨rfl, -⟩ := h
        rcases List.mem_cons.mp hl with rfl | hl
        · exact good_line_level0 _ _ (Or.inl rfl)
        · rcases List.mem_singleton.mp hl with rfl
          exact good_line_level0 _ _ (Or.inr rfl)
  · simp only [process_track, if_neg htr] at h
    cases htt : track_type data with
    | error e => simp only [htt] at h; simp at h
    | ok tt =>
      simp only [htt] at h
      by_cases haud : tt = S "AUDIO"
      · rw [if_pos haud] at h
        cases hi : get_isrc data with
        | error e => simp only [hi] at h; simp at h
        | ok isrc =>
          simp only [hi] at h
          cases htf : get_track_file data with
          | error e => simp only [htf] at h; simp at h
          | ok otf =>
            simp only [htf] at h
            cases otf with
            | none => simp at h
            | some tf =>
              match tf with
              | [] => simp at h
              | [_] => simp at h
              | _ :: _ :: _ :: _ => simp at h
              | [ts0, len] =>
                simp only at h
                cases hos : offset_sum (if ts0 = S "0" then S "00:00:00" else ts0) so with
                | error e => simp only [hos] at h; simp at h
                | ok ts =>
                  simp only [hos] at h
                  cases hst : get_start data with
                  | error e => simp only [hst] at h; simp at h
                  | ok start =>
                    simp only [hst] at h
                    cases his : index_step ts start with
                    | error e => simp only [his] at h; simp at h
                    | ok ils =>
                      simp only [his] at h
                      cases hsl : get_silence data with
                      | error e => simp only [hsl] at h; simp at h
                      | ok silence =>
                        simp only [hsl] at h
                        cases hss : silence_step so silence with
                        | error e => simp only [hss] at h; simp at h
                        | ok so3 =>
                          simp only [hss, Except.ok.injEq, Prod.mk.injEq] at h
                          obtain ⟨rfl, -⟩ := h
                          rcases List.mem_cons.mp hl with rfl | hl
                          · exact good_line_level1 _
                          · rcases List.mem_append.mp hl with hl | hl
                            · rcases List.mem_append.mp hl with hl | hl
                              · cases hcp : has_copy data
                                · rw [hcp] at hl; simp at hl
                                · rw [hcp] at hl
                                  simp only [if_true] at hl
                                  rcases List.mem_singleton.mp hl with rfl
                                  exact good_line_level2 _ _ (Or.inl rfl)
                              · cases isrc with
                                | none => simp at hl
                                | some i =>
                                  rcases List.mem_singleton.mp hl with rfl
                                  exact good_line_level2 _ _ (Or.inr (Or.inl rfl))
                            · exact index_step_good ts start _ his l hl
      · by_cases hm1 : tt = S "MODE1"
        · rw [if_neg haud, if_pos hm1] at h
          simp only [Except.ok.injEq, Prod.mk.injEq] at h
          obtain ⟨rfl, -⟩ := h
          rcases List.mem_cons.mp hl with rfl | hl
          · exact good_line_level1 _
          · rcases List.mem_singleton.mp hl with rfl
            exact good_line_level2 _ _ (Or.inr (Or.inr rfl))
        · rw [if_neg haud, if_neg hm1] at h
          simp at h

lemma tracks_loop_good : ∀ (tracks : List (List (List PyStr))) (t1a : Bool) (n : Nat)
    (so : PyStr) (ls : List PyStr), tracks_loop t1a n tracks so = .ok ls →
    ∀ l ∈ ls, good_line l := by
  intro tracks
  induction tracks with
  | nil =>
    intro t1a n so ls h l hl
    simp only [tracks_loop, Except.ok.injEq] at h
    subst h
    simp at hl
  | cons data rest ih =>
    intro t1a n so ls h l hl
    simp only [tracks_loop] at h
    cases hp : process_track t1a n data so with
    | error e => simp only [hp] at h; simp at h
    | ok pr =>
      simp only [hp] at h
      cases hmore : tracks_loop t1a (n + 1) rest pr.2 with
      | error e =>
        simp only [hmore] at h
        simp at h
      | ok more =>
        simp only [hmore, Except.ok.injEq] at h
        subst h
        rcases List.mem_append.mp hl with hl | hl
        · exact process_track_good t1a n data so pr.1 pr.2
            (by rw [hp]) l hl
        · exact ih t1a (n + 1) pr.2 more hmore l hl

/-- C1 (counterexample): the claim puts `TRACK` at nesting level 0 (no
indent) and `INDEX` one level deep (two spaces); on a minimal TOC the
emitted `TRACK` line carries a two-space indent and the `INDEX` line a
four-space indent. -/
theorem C1_counterexample :
    make_cuesheet_lines [S "CD_DA", S "TRACK AUDIO", S "FILE \"f.wav\" 0 03:00:00"] =
      .ok [S "FILE \"data.wav\" BINARY", S "  TRACK 01 AUDIO",
           S "    INDEX 01 00:00:00", S ""] ∧
      first_tok (S "  TRACK 01 AUDIO") = S "TRACK" ∧
      leading_spaces (S "  TRACK 01 AUDIO") = 2 ∧
      first_tok (S "    INDEX 01 00:00:00") = S "INDEX" ∧
      leading_spaces (S "    INDEX 01 00:00:00") = 4 :=
  ⟨rfl, rfl, rfl, rfl, rfl⟩

/-- C1 (amended): every line of a successful conversion is either the
trailing empty line or is indented two spaces per nesting level, with
`FILE` and `CATALOG` at level 0 (no indent), `TRACK` at level 1 (two
spaces), and the track-scoped `FLAGS`/`ISRC`/`INDEX` at level 2 (four
spaces). -/
theorem C1_indentation (parts : List PyStr) (out : List PyStr)
    (h : make_cuesheet_lines parts = .ok out) :
    ∀ l ∈ out, l = [] ∨ good_line l := by
  intro l hl
  simp only [make_cuesheet_lines] at h
  cases h1 : ((split_by_track parts).map (fun data => data.map py_split))[1]? with
  | none => simp only [h1] at h; simp at h
  | some d1 =>
    simp only [h1] at h
    cases h2 : track_type d1 with
    | error e => simp only [h2] at h; simp at h
    | ok t1 =>
      simp only [h2] at h
      cases h3 : tracks_loop (t1 = S "AUDIO")
          0 ((split_by_track parts).map (fun data => data.map py_split)) (S "00:00:00") with
      | error e => simp only [h3] at h; simp at h
      | ok ls =>
        simp only [h3, Except.ok.injEq] at h
        subst h
        rcases List.mem_append.mp hl with hl | hl
        · exact Or.inr (tracks_loop_good _ _ _ _ _ h3 l hl)
        · rcases List.mem_singleton.mp hl with rfl
          exact Or.inl rfl

/-- C1 witness: the amended statement evaluated on a successful concrete
conversion. -/
theorem C1_indentation_witness :
    S "  TRACK 01 AUDIO" = [] ∨ good_line (S "  TRACK 01 AUDIO") :=
  C1_indentation [S "CD_DA", S "TRACK AUDIO", S "FILE \"f.wav\" 0 03:00:00"]
    [S "FILE \"data.wav\" BINARY", S "  TRACK 01 AUDIO", S "    INDEX 01 00:00:00", S ""]
    rfl (S "  TRACK 01 AUDIO") (by decide)

end CuToc
